import Mathlib

/-!
Verification of the DHCPot repository: a shallow embedding of the two DHCP
server variants (the cooperative server of `main.go` and the adversarial
variant) together with theorems about the behaviour of their message
handlers.

Modelling conventions:
* IPv4 addresses are natural numbers (the numeric value of the 4 bytes);
  `net.IP.Equal` on two 4-byte addresses is numeric equality.  A `net.IP`
  that can be `nil` (an absent option) is an `Option Nat`; `Equal` against
  `nil` is `false`.
* Client identifiers (`ClientHWAddr.String()` keys) are natural numbers.
* Wall-clock instants are natural numbers; `t1.After(t2)` is `t2 < t1`.
  Each handled message is evaluated at one instant `now`.
* The Go `map[string]*Lease` is an association list with the usual
  first-match lookup; insertion removes the old binding and conses the new
  one, which is extensionally the Go map update.
* Sending a packet on the socket is modelled as the emitted decision
  (`Option Reply`): `none` is "no reply sent".
-/

namespace DHCPot

/-- DHCP message types (the constants of the two DHCP libraries that the
handlers branch on). -/
inductive DMsgType
  | discover
  | offer
  | request
  | ack
  | nak
  | release
  | other
  deriving DecidableEq, BEq

/-- The `Lease` record of `main.go`: IP, MAC, expiry time and hostname. -/
structure Lease where
  ip : Nat
  mac : Nat
  expiry : Nat
  hostname : String
  deriving DecidableEq

/-- The fields of an inbound DHCPv4 packet that the handlers read: message
type, hardware address, the requested-address option (absent ⇒ `none`),
the server-identifier option (absent ⇒ `none`), the `ciaddr` field and the
hostname option. -/
structure Msg where
  mtype : DMsgType
  mac : Nat
  requestedIP : Option Nat
  serverId : Option Nat
  ciaddr : Nat
  hostname : String
  deriving DecidableEq

/-- Replies the cooperative server can emit (`sendOffer`, `sendAck`,
`sendNak`); the fixed option payload (mask, router, DNS, lease time) is
configuration glue and carries no per-decision information. -/
inductive Reply
  | offer (ip : Nat)
  | ack (ip : Nat)
  | nak
  deriving DecidableEq

/-- The mutable and configuration state of `DHCPServer` that the handlers
consult: server address, the IP pool, the lease duration and the lease
table. -/
structure ServerState where
  serverIP : Nat
  ipPool : List Nat
  leaseDuration : Nat
  leases : List (Nat × Lease)
  deriving DecidableEq

/-- Go map update `tbl[k] = v`: drop any old binding of `k`, add the new
one. -/
def putKV {α : Type} (tbl : List (Nat × α)) (k : Nat) (v : α) : List (Nat × α) :=
  (k, v) :: tbl.filter (fun p => p.1 != k)

/-- Go map deletion `delete(tbl, k)`. -/
def removeKV {α : Type} (tbl : List (Nat × α)) (k : Nat) : List (Nat × α) :=
  tbl.filter (fun p => p.1 != k)

/-- The pool-construction loop of `NewDHCPServer`: iterate from `startIP`
while `ip ≤ endIP`, appending every address other than the server's own.
(The Go loop increments a 4-byte address; on the terminating
configurations, `start ≤ end` below the 4-byte maximum, that increment is
plain successor, which this enumeration mirrors.) -/
def buildPool (serverIP startIP endIP : Nat) : List Nat :=
  (List.range' startIP (endIP + 1 - startIP)).filter (fun ip => ip != serverIP)

/-- `NewDHCPServer` after successful parsing: the pool is built from the
range, the lease duration is fixed at 24 hours (in seconds here) and the
lease table starts empty. -/
def mkServer (serverIP startIP endIP : Nat) : ServerState :=
  { serverIP := serverIP
    ipPool := buildPool serverIP startIP endIP
    leaseDuration := 86400
    leases := [] }

/-- `isIPAvailable`: no stored lease holds `ip` with an expiry strictly
after `now`. -/
def isIPAvailable (s : ServerState) (ip now : Nat) : Bool :=
  s.leases.all (fun p => !(p.2.ip == ip && decide (now < p.2.expiry)))

/-- `isIPInPool`: some pool address equals `ip`. -/
def isIPInPool (s : ServerState) (ip : Nat) : Bool :=
  s.ipPool.contains ip

/-- `findAvailableIP`: first pool address that `isIPAvailable` accepts. -/
def findAvailableIP (s : ServerState) (now : Nat) : Option Nat :=
  s.ipPool.find? (fun ip => isIPAvailable s ip now)

/-- `handleDiscover`: re-offer the client's unexpired lease if one is
stored, otherwise offer the first available pool address, or stay silent
when the pool is exhausted.  The function mutates nothing. -/
def handleDiscover (s : ServerState) (mac now : Nat) : Option Reply :=
  match s.leases.lookup mac with
  | some l =>
      if now < l.expiry then some (Reply.offer l.ip)
      else (findAvailableIP s now).map Reply.offer
  | none => (findAvailableIP s now).map Reply.offer

/-- The tail of `handleRequest` after the renewal check: assign a new lease
when the address is available, otherwise NAK. -/
def handleRequestAssign (s : ServerState) (m : Msg) (rip now : Nat) :
    ServerState × Option Reply :=
  if isIPAvailable s rip now then
    let newLease : Lease :=
      { ip := rip, mac := m.mac, expiry := now + s.leaseDuration,
        hostname := m.hostname }
    ({ s with leases := putKV s.leases m.mac newLease }, some (Reply.ack rip))
  else
    (s, some Reply.nak)

/-- `handleRequest`: NAK when the requested address is absent
(`Equal(nil)` is false, so the pool check fails) or outside the pool;
renew when the client's stored lease has exactly this address (regardless
of expiry); otherwise assign when available, else NAK. -/
def handleRequest (s : ServerState) (m : Msg) (now : Nat) :
    ServerState × Option Reply :=
  match m.requestedIP with
  | none => (s, some Reply.nak)
  | some rip =>
      if isIPInPool s rip then
        match s.leases.lookup m.mac with
        | some l =>
            if l.ip = rip then
              let renewed : Lease := { l with expiry := now + s.leaseDuration }
              ({ s with leases := putKV s.leases m.mac renewed },
                some (Reply.ack rip))
            else handleRequestAssign s m rip now
        | none => handleRequestAssign s m rip now
      else (s, some Reply.nak)

/-- `handleRelease`: delete the client's lease when one exists; no reply
is ever produced. -/
def handleRelease (s : ServerState) (mac : Nat) : ServerState :=
  match s.leases.lookup mac with
  | some _ => { s with leases := removeKV s.leases mac }
  | none => s

/-- `handleDHCPRequest`: dispatch one inbound message by type; any other
type is ignored. -/
def stepFull (s : ServerState) (m : Msg) (now : Nat) :
    ServerState × Option Reply :=
  match m.mtype with
  | DMsgType.discover => (s, handleDiscover s m.mac now)
  | DMsgType.request => handleRequest s m now
  | DMsgType.release => (handleRelease s m.mac, none)
  | _ => (s, none)

/-- The state after one handled message. -/
def stepState (s : ServerState) (m : Msg) (now : Nat) : ServerState :=
  (stepFull s m now).1

/-- The state after a sequence of handled messages, each paired with the
instant at which it is handled. -/
def runFrom (s : ServerState) : List (Msg × Nat) → ServerState
  | [] => s
  | p :: rest => runFrom (stepState s p.1 p.2) rest

/-- Timestamps of a message sequence are nondecreasing, starting from
`t`. -/
def timesMono (t : Nat) : List (Msg × Nat) → Bool
  | [] => true
  | p :: rest => decide (t ≤ p.2) && timesMono p.2 rest

/-- The instant of the last handled message (or `t` for the empty
sequence). -/
def endTime (t : Nat) : List (Msg × Nat) → Nat
  | [] => t
  | p :: rest => endTime p.2 rest

/-! ### The adversarial variant

The second source file implements `RogueDHCPHandler.ServeDHCP` on top of
the `dhcp4` library.  The library arithmetic it calls is embedded here:
`IPRange(start, stop)` is `int(stop) - int(start) + 1` over the 4-byte
values, and `IPAdd(start, add)` is 32-bit wrapping addition
`uint32(start) + uint32(add)`.  Go `int` division truncates toward
zero. -/

/-- `RogueConfig`: server address, offer range and lease duration (the
poisoned option payload carries no decision-relevant state). -/
structure RogueConfig where
  serverIP : Nat
  startIP : Nat
  endIP : Nat
  leaseDuration : Nat
  deriving DecidableEq

/-- `RogueDHCPHandler`: the configuration plus the `leaseDB` map from
client MAC to the IP last offered to it. -/
structure RogueState where
  cfg : RogueConfig
  leaseDB : List (Nat × Nat)
  deriving DecidableEq

/-- A reply built by `dhcp4.ReplyPacket`: its message type, the server
identifier and the assigned (`yiaddr`) address. -/
structure RoguePacket where
  ptype : DMsgType
  server : Nat
  yiaddr : Nat
  deriving DecidableEq

/-- `dhcp4.IPRange`: the signed count of addresses from `start` to `stop`
inclusive. -/
def ipRange (start stop : Nat) : Int :=
  (stop : Int) - (start : Int) + 1

/-- `dhcp4.IPAdd`: 32-bit wrapping addition of a signed offset to an
address. -/
def ipAdd (start : Nat) (add : Int) : Nat :=
  (((start : Int) + add).emod (2 ^ 32)).toNat

/-- The address the rogue handler offers on every DISCOVER: the range
start plus half the range size (Go `int` division truncates toward
zero). -/
def rogueOfferIP (c : RogueConfig) : Nat :=
  ipAdd c.startIP (Int.tdiv (ipRange c.startIP c.endIP) 2)

/-- The ACK tail of the rogue REQUEST branch: acknowledge the IP recorded
in `leaseDB`, falling back to the requested-address option and then to the
client's `ciaddr`. -/
def rogueAck (h : RogueState) (req : Msg) : RogueState × Option RoguePacket :=
  let requested := req.requestedIP.getD req.ciaddr
  let ackIP := (h.leaseDB.lookup req.mac).getD requested
  (h, some { ptype := DMsgType.ack, server := h.cfg.serverIP, yiaddr := ackIP })

/-- `RogueDHCPHandler.ServeDHCP`: on DISCOVER, record and offer the fixed
midpoint address; on REQUEST, stay silent when the server-identifier
option names another server, otherwise always ACK; ignore every other
message type. -/
def serveDHCP (h : RogueState) (req : Msg) : RogueState × Option RoguePacket :=
  match req.mtype with
  | DMsgType.discover =>
      let offered := rogueOfferIP h.cfg
      ({ h with leaseDB := putKV h.leaseDB req.mac offered },
        some { ptype := DMsgType.offer, server := h.cfg.serverIP,
               yiaddr := offered })
  | DMsgType.request =>
      match req.serverId with
      | some sid =>
          if sid = h.cfg.serverIP then rogueAck h req else (h, none)
      | none => rogueAck h req
  | _ => (h, none)

/-! ### Association-list lemmas -/

theorem lookup_filter_ne_key {α : Type} (tbl : List (Nat × α)) {k k0 : Nat}
    (h : k ≠ k0) :
    (tbl.filter (fun p => p.1 != k0)).lookup k = tbl.lookup k := by
  induction tbl with
  | nil => rfl
  | cons p rest ih =>
    rcases p with ⟨a, b⟩
    by_cases hak : a = k0
    · subst hak
      have hkk := beq_false_of_ne h
      simp [List.filter_cons, List.lookup_cons, hkk, ih]
    · have : (a != k0) = true := bne_iff_ne.mpr hak
      simp [List.filter_cons, this, List.lookup_cons, ih]

theorem lookup_filter_self {α : Type} (tbl : List (Nat × α)) (k : Nat) :
    (tbl.filter (fun p => p.1 != k)).lookup k = none := by
  induction tbl with
  | nil => rfl
  | cons p rest ih =>
    rcases p with ⟨a, b⟩
    by_cases hak : a = k
    · subst hak
      simp [List.filter_cons, ih]
    · have h1 : (a != k) = true := bne_iff_ne.mpr hak
      have h2 : (k == a) = false := beq_false_of_ne (Ne.symm hak)
      simp [List.filter_cons, h1, List.lookup_cons, h2, ih]

theorem lookup_putKV_self {α : Type} (tbl : List (Nat × α)) (k : Nat) (v : α) :
    (putKV tbl k v).lookup k = some v := by
  simp [putKV, List.lookup_cons]

theorem lookup_putKV_ne {α : Type} (tbl : List (Nat × α)) {k k0 : Nat}
    (v : α) (h : k ≠ k0) :
    (putKV tbl k0 v).lookup k = tbl.lookup k := by
  have hkk : (k == k0) = false := beq_false_of_ne h
  simp [putKV, List.lookup_cons, hkk, lookup_filter_ne_key _ h]

theorem lookup_mem {α : Type} {tbl : List (Nat × α)} {k : Nat} {v : α}
    (h : tbl.lookup k = some v) : (k, v) ∈ tbl := by
  induction tbl with
  | nil => simp at h
  | cons p rest ih =>
    rcases p with ⟨a, b⟩
    rw [List.lookup_cons] at h
    by_cases hak : k = a
    · subst hak
      simp at h
      simp [h]
    · have hkk : (k == a) = false := beq_false_of_ne hak
      rw [hkk] at h
      exact List.mem_cons_of_mem _ (ih h)

/-! ### Availability and configuration lemmas -/

theorem isIPAvailable_spec {s : ServerState} {ip now : Nat}
    (h : isIPAvailable s ip now = true) :
    ∀ p ∈ s.leases, p.2.ip = ip → p.2.expiry ≤ now := by
  intro p hp hip
  have := List.all_eq_true.mp h p hp
  simp [hip] at this
  exact this

theorem isIPAvailable_of_spec {s : ServerState} {ip now : Nat}
    (h : ∀ p ∈ s.leases, p.2.ip = ip → p.2.expiry ≤ now) :
    isIPAvailable s ip now = true := by
  apply List.all_eq_true.mpr
  intro p hp
  by_cases hip : p.2.ip = ip
  · simp [hip, Nat.not_lt.mpr (h p hp hip)]
  · simp [hip]

theorem stepState_config (s : ServerState) (m : Msg) (t : Nat) :
    (stepState s m t).serverIP = s.serverIP ∧
    (stepState s m t).ipPool = s.ipPool ∧
    (stepState s m t).leaseDuration = s.leaseDuration := by
  unfold stepState stepFull handleRequest handleRequestAssign handleRelease
  rcases m with ⟨mt, mac, rip, sid, ci, hn⟩
  cases mt <;> simp
  · cases rip with
    | none => simp
    | some r =>
      dsimp only
      split
      · split
        · split
          · simp
          · split <;> simp
        · split <;> simp
      · simp
  · split <;> simp

/-! ### Mutual exclusion of unexpired leases -/

/-- No two distinct clients hold leases on the same address that are both
unexpired at instant `t`. -/
def mutexTbl (tbl : List (Nat × Lease)) (t : Nat) : Prop :=
  ∀ c1 c2 l1 l2, c1 ≠ c2 → tbl.lookup c1 = some l1 →
    tbl.lookup c2 = some l2 → t < l1.expiry → t < l2.expiry → l1.ip ≠ l2.ip

/-- `mutexTbl` stated on a server state. -/
def mutexAt (s : ServerState) (t : Nat) : Prop :=
  mutexTbl s.leases t

theorem mutexTbl_mono {tbl : List (Nat × Lease)} {t t' : Nat} (h : t ≤ t')
    (hm : mutexTbl tbl t) : mutexTbl tbl t' := by
  intro c1 c2 l1 l2 hne h1 h2 he1 he2
  exact hm c1 c2 l1 l2 hne h1 h2 (lt_of_le_of_lt h he1) (lt_of_le_of_lt h he2)

theorem mutexTbl_filter {tbl : List (Nat × Lease)} {t : Nat} (mac : Nat)
    (hm : mutexTbl tbl t) : mutexTbl (tbl.filter (fun p => p.1 != mac)) t := by
  intro c1 c2 l1 l2 hne h1 h2 he1 he2
  by_cases hc1 : c1 = mac
  · subst hc1
    rw [lookup_filter_self] at h1
    exact absurd h1 (by simp)
  · by_cases hc2 : c2 = mac
    · subst hc2
      rw [lookup_filter_self] at h2
      exact absurd h2 (by simp)
    · rw [lookup_filter_ne_key _ hc1] at h1
      rw [lookup_filter_ne_key _ hc2] at h2
      exact hm c1 c2 l1 l2 hne h1 h2 he1 he2

/-- Overwriting `mac` with a lease whose address no unexpired stored lease
holds preserves mutual exclusion. -/
theorem mutexTbl_put_fresh {tbl : List (Nat × Lease)} {t : Nat} {mac : Nat}
    {v : Lease} (hfree : ∀ p ∈ tbl, p.2.ip = v.ip → p.2.expiry ≤ t)
    (hm : mutexTbl tbl t) : mutexTbl (putKV tbl mac v) t := by
  intro c1 c2 l1 l2 hne h1 h2 he1 he2
  by_cases hc1 : c1 = mac
  · rw [hc1, lookup_putKV_self] at h1
    injection h1 with hv
    subst hv
    have hc2 : c2 ≠ mac := fun hh => hne (hc1.trans hh.symm)
    rw [lookup_putKV_ne _ _ hc2] at h2
    intro hip
    have := hfree (c2, l2) (lookup_mem h2) hip.symm
    exact absurd he2 (Nat.not_lt.mpr this)
  · by_cases hc2 : c2 = mac
    · rw [hc2, lookup_putKV_self] at h2
      injection h2 with hv
      subst hv
      rw [lookup_putKV_ne _ _ hc1] at h1
      intro hip
      have := hfree (c1, l1) (lookup_mem h1) hip
      exact absurd he1 (Nat.not_lt.mpr this)
    · rw [lookup_putKV_ne _ _ hc1] at h1
      rw [lookup_putKV_ne _ _ hc2] at h2
      exact hm c1 c2 l1 l2 hne h1 h2 he1 he2

/-- Renewing a lease that is still unexpired, keeping its address,
preserves mutual exclusion. -/
theorem mutexTbl_put_renew {tbl : List (Nat × Lease)} {t : Nat} {mac : Nat}
    {l v : Lease} (hl : tbl.lookup mac = some l) (hexp : t < l.expiry)
    (hv : v.ip = l.ip) (hm : mutexTbl tbl t) :
    mutexTbl (putKV tbl mac v) t := by
  intro c1 c2 l1 l2 hne h1 h2 he1 he2
  by_cases hc1 : c1 = mac
  · rw [hc1, lookup_putKV_self] at h1
    injection h1 with hv1
    subst hv1
    have hc2 : c2 ≠ mac := fun hh => hne (hc1.trans hh.symm)
    rw [lookup_putKV_ne _ _ hc2] at h2
    have hmac : List.lookup c1 tbl = some l := by rw [hc1]; exact hl
    have := hm c1 c2 l l2 hne hmac h2 hexp he2
    rw [hv]
    exact this
  · by_cases hc2 : c2 = mac
    · rw [hc2, lookup_putKV_self] at h2
      injection h2 with hv2
      subst hv2
      rw [lookup_putKV_ne _ _ hc1] at h1
      have hmac : List.lookup c2 tbl = some l := by rw [hc2]; exact hl
      have := hm c1 c2 l1 l hne h1 hmac he1 hexp
      rw [hv]
      exact this
    · rw [lookup_putKV_ne _ _ hc1] at h1
      rw [lookup_putKV_ne _ _ hc2] at h2
      exact hm c1 c2 l1 l2 hne h1 h2 he1 he2

/-- A REQUEST that takes the renewal branch on a lease that has already
expired: the one step shape that can break mutual exclusion. -/
def renewsStale (s : ServerState) (m : Msg) (now : Nat) : Bool :=
  decide (m.mtype = DMsgType.request) &&
    (match m.requestedIP with
     | some rip =>
         isIPInPool s rip &&
           (match s.leases.lookup m.mac with
            | some l => (l.ip == rip) && decide (l.expiry ≤ now)
            | none => false)
     | none => false)

/-- No message in the sequence renews a lease that had already expired
when the message was handled. -/
def noStaleTrace (s : ServerState) : List (Msg × Nat) → Bool
  | [] => true
  | p :: rest => !(renewsStale s p.1 p.2) && noStaleTrace (stepState s p.1 p.2) rest

theorem mutex_step {s : ServerState} {m : Msg} {t : Nat}
    (hm : mutexAt s t) (hns : renewsStale s m t = false) :
    mutexAt (stepState s m t) t := by
  unfold mutexAt at hm ⊢
  unfold stepState stepFull
  rcases m with ⟨mt, mac, rip, sid, ci, hn⟩
  cases mt <;> simp_all
  · -- request
    unfold handleRequest
    cases rip with
    | none => exact hm
    | some r =>
      dsimp only
      by_cases hpool : isIPInPool s r = true
      · rw [if_pos hpool]
        cases hlk : s.leases.lookup mac with
        | some l =>
            dsimp only
            by_cases hipr : l.ip = r
            · rw [if_pos hipr]
              dsimp only
              unfold renewsStale at hns
              simp [hpool, hlk, hipr] at hns
              exact mutexTbl_put_renew hlk (by omega) rfl hm
            · rw [if_neg hipr]
              unfold handleRequestAssign
              by_cases hav : isIPAvailable s r t = true
              · rw [if_pos hav]
                exact mutexTbl_put_fresh (isIPAvailable_spec hav) hm
              · rw [if_neg hav]
                exact hm
        | none =>
            unfold handleRequestAssign
            by_cases hav : isIPAvailable s r t = true
            · rw [if_pos hav]
              exact mutexTbl_put_fresh (isIPAvailable_spec hav) hm
            · rw [if_neg hav]
              exact hm
      · rw [if_neg hpool]
        exact hm
  · -- release
    unfold handleRelease
    cases s.leases.lookup mac with
    | some l => exact mutexTbl_filter mac hm
    | none => exact hm

theorem mutex_run (ms : List (Msg × Nat)) :
    ∀ (s : ServerState) (t : Nat), mutexAt s t → timesMono t ms = true →
      noStaleTrace s ms = true → mutexAt (runFrom s ms) (endTime t ms) := by
  induction ms with
  | nil => intro s t hm _ _; exact hm
  | cons p rest ih =>
    intro s t hm htm hns
    rcases p with ⟨m, t'⟩
    simp [timesMono, Bool.and_eq_true] at htm
    simp [noStaleTrace, Bool.and_eq_true] at hns
    have hm' : mutexAt s t' := mutexTbl_mono htm.1 hm
    have hstep : mutexAt (stepState s m t') t' :=
      mutex_step hm' (by simpa using hns.1)
    exact ih (stepState s m t') t' hstep htm.2 hns.2

/-! ### Pool containment -/

/-- Every stored lease's address is a member of the configured pool. -/
def leasesInPool (s : ServerState) : Prop :=
  ∀ k l, s.leases.lookup k = some l → l.ip ∈ s.ipPool

theorem isIPInPool_mem {s : ServerState} {ip : Nat}
    (h : isIPInPool s ip = true) : ip ∈ s.ipPool := by
  simpa [isIPInPool] using h

theorem mem_isIPInPool {s : ServerState} {ip : Nat}
    (h : ip ∈ s.ipPool) : isIPInPool s ip = true := by
  simpa [isIPInPool] using h

theorem step_leasesInPool {s : ServerState} (m : Msg) (t : Nat)
    (h : leasesInPool s) : leasesInPool (stepState s m t) := by
  unfold leasesInPool at h ⊢
  unfold stepState stepFull
  rcases m with ⟨mt, mac, rip, sid, ci, hn⟩
  cases mt <;> try exact h
  · -- request
    unfold handleRequest
    cases rip with
    | none => exact h
    | some r =>
      dsimp only
      by_cases hpool : isIPInPool s r = true
      · rw [if_pos hpool]
        cases hlk : s.leases.lookup mac with
        | some l =>
            dsimp only
            by_cases hipr : l.ip = r
            · rw [if_pos hipr]
              dsimp only
              intro k l1 hk
              by_cases hkm : k = mac
              · rw [hkm, lookup_putKV_self] at hk
                injection hk with hv
                subst hv
                exact h mac l hlk
              · rw [lookup_putKV_ne _ _ hkm] at hk
                exact h k l1 hk
            · rw [if_neg hipr]
              unfold handleRequestAssign
              by_cases hav : isIPAvailable s r t = true
              · rw [if_pos hav]
                dsimp only
                intro k l1 hk
                by_cases hkm : k = mac
                · rw [hkm, lookup_putKV_self] at hk
                  injection hk with hv
                  subst hv
                  exact isIPInPool_mem hpool
                · rw [lookup_putKV_ne _ _ hkm] at hk
                  exact h k l1 hk
              · rw [if_neg hav]
                exact h
        | none =>
            dsimp only
            unfold handleRequestAssign
            by_cases hav : isIPAvailable s r t = true
            · rw [if_pos hav]
              dsimp only
              intro k l1 hk
              by_cases hkm : k = mac
              · rw [hkm, lookup_putKV_self] at hk
                injection hk with hv
                subst hv
                exact isIPInPool_mem hpool
              · rw [lookup_putKV_ne _ _ hkm] at hk
                exact h k l1 hk
            · rw [if_neg hav]
              exact h
      · rw [if_neg hpool]
        exact h
  · -- release
    unfold handleRelease
    cases s.leases.lookup mac with
    | some l =>
        intro k l1 hk
        by_cases hkm : k = mac
        · rw [hkm] at hk
          rw [removeKV, lookup_filter_self] at hk
          exact absurd hk (by simp)
        · rw [removeKV, lookup_filter_ne_key _ hkm] at hk
          exact h k l1 hk
    | none => exact h

theorem runFrom_config (ms : List (Msg × Nat)) (s : ServerState) :
    (runFrom s ms).serverIP = s.serverIP ∧
    (runFrom s ms).ipPool = s.ipPool ∧
    (runFrom s ms).leaseDuration = s.leaseDuration := by
  induction ms generalizing s with
  | nil => exact ⟨rfl, rfl, rfl⟩
  | cons p rest ih =>
    have h1 := stepState_config s p.1 p.2
    have h2 := ih (stepState s p.1 p.2)
    exact ⟨h2.1.trans h1.1, h2.2.1.trans h1.2.1, h2.2.2.trans h1.2.2⟩

theorem run_leasesInPool (ms : List (Msg × Nat)) (s : ServerState)
    (h : leasesInPool s) : leasesInPool (runFrom s ms) := by
  induction ms generalizing s with
  | nil => exact h
  | cons p rest ih => exact ih _ (step_leasesInPool p.1 p.2 h)

/-! ### Sample messages used by concrete instantiations -/

/-- A REQUEST for `ip` from client `mac`, with no server-identifier
option. -/
def requestMsg (mac ip : Nat) : Msg :=
  { mtype := DMsgType.request, mac := mac, requestedIP := some ip,
    serverId := none, ciaddr := 0, hostname := "" }

/-- A DISCOVER from client `mac`. -/
def discoverMsg (mac : Nat) : Msg :=
  { mtype := DMsgType.discover, mac := mac, requestedIP := none,
    serverId := none, ciaddr := 0, hostname := "" }

/-- A RELEASE from client `mac`. -/
def releaseMsg (mac : Nat) : Msg :=
  { mtype := DMsgType.release, mac := mac, requestedIP := none,
    serverId := none, ciaddr := 0, hostname := "" }

/-- A message sequence on the pool 100–102 (server address 1) that makes
client 5's expired lease be renewed after its address was re-assigned to
client 6: REQUEST(5,100) at 0, REQUEST(6,100) at 86401 (5's lease has
expired), REQUEST(5,100) at 86402 (stale renewal). -/
def staleRenewalTrace : List (Msg × Nat) :=
  [(requestMsg 5 100, 0), (requestMsg 6 100, 86401), (requestMsg 5 100, 86402)]

/-! ### Claim C1 -/

/-- C1 counterexample: after the valid (nondecreasing-time) message
sequence `staleRenewalTrace`, the distinct clients 5 and 6 both hold
leases on address 100 whose expiries (172802 and 172801) lie strictly
after the instant 86402 of the last handled message, so two unexpired
leases of distinct clients share one address and the claimed invariant
fails. -/
theorem mutual_exclusion_counterexample :
    timesMono 0 staleRenewalTrace = true ∧
    (runFrom (mkServer 1 100 102) staleRenewalTrace).leases.lookup 5 =
      some { ip := 100, mac := 5, expiry := 172802, hostname := "" } ∧
    (runFrom (mkServer 1 100 102) staleRenewalTrace).leases.lookup 6 =
      some { ip := 100, mac := 6, expiry := 172801, hostname := "" } ∧
    (5 : Nat) ≠ 6 ∧ 86402 < 172802 ∧ 86402 < 172801 ∧
    ¬ mutexAt (runFrom (mkServer 1 100 102) staleRenewalTrace) 86402 := by
  refine ⟨by decide, by decide, by decide, by decide, by decide, by decide, ?_⟩
  intro hmux
  exact hmux 5 6 { ip := 100, mac := 5, expiry := 172802, hostname := "" }
    { ip := 100, mac := 6, expiry := 172801, hostname := "" }
    (by decide) (by decide) (by decide) (by decide) (by decide) rfl

/-- C1 (amended): starting from the empty lease table, after any sequence
of handled DISCOVER/REQUEST/RELEASE messages with nondecreasing
timestamps in which no REQUEST renews a lease that had already expired
when it was handled, any two leases of distinct clients that are both
unexpired at any instant at or after the last message have different
addresses. -/
theorem mutual_exclusion_of_unexpired_leases (srv st en t0 tN : Nat)
    (ms : List (Msg × Nat))
    (htm : timesMono t0 ms = true)
    (hns : noStaleTrace (mkServer srv st en) ms = true)
    (htN : endTime t0 ms ≤ tN) :
    mutexAt (runFrom (mkServer srv st en) ms) tN := by
  have h0 : mutexAt (mkServer srv st en) t0 := by
    intro c1 c2 l1 l2 hne h1 h2 he1 he2
    simp [mkServer] at h1
  exact mutexTbl_mono htN (mutex_run ms (mkServer srv st en) t0 h0 htm hns)

/-- Concrete instantiation of the mutual-exclusion theorem on a two-client
exchange. -/
theorem mutual_exclusion_of_unexpired_leases_witness :
    timesMono 0 [(requestMsg 5 100, 0), (requestMsg 6 101, 5)] = true ∧
    noStaleTrace (mkServer 1 100 102)
      [(requestMsg 5 100, 0), (requestMsg 6 101, 5)] = true ∧
    endTime 0 [(requestMsg 5 100, 0), (requestMsg 6 101, 5)] ≤ 5 ∧
    mutexAt (runFrom (mkServer 1 100 102)
      [(requestMsg 5 100, 0), (requestMsg 6 101, 5)]) 5 :=
  ⟨by decide, by decide, by decide,
    mutual_exclusion_of_unexpired_leases 1 100 102 0 5
      [(requestMsg 5 100, 0), (requestMsg 6 101, 5)]
      (by decide) (by decide) (by decide)⟩

/-! ### Claim C2 -/

/-- C2 counterexample: on the empty table, a DISCOVER from client 7 makes
the server emit OFFER 100 (the allocator found a free address), yet the
resulting table holds no lease for client 7 — the handler stores
nothing, contradicting the claimed `table.put` of an OFFERED lease. -/
theorem discover_stores_lease_counterexample :
    (stepFull (mkServer 1 100 102) (discoverMsg 7) 0).2 =
      some (Reply.offer 100) ∧
    (stepFull (mkServer 1 100 102) (discoverMsg 7) 0).1.leases.lookup 7 =
      none := by
  decide

/-- C2 (amended): on DISCOVER, when the client has no unexpired lease in
the table, the handler leaves the table (indeed the whole state)
unchanged and emits an OFFER carrying the allocator's address when the
allocator finds a free one, and no reply when the pool is exhausted. -/
theorem discover_offer_no_store (s : ServerState) (m : Msg) (now : Nat)
    (hm : m.mtype = DMsgType.discover)
    (hl : ∀ l, s.leases.lookup m.mac = some l → l.expiry ≤ now) :
    stepFull s m now = (s, (findAvailableIP s now).map Reply.offer) := by
  unfold stepFull
  rw [hm]
  dsimp only
  unfold handleDiscover
  cases hlk : s.leases.lookup m.mac with
  | none => rfl
  | some l =>
      dsimp only
      rw [if_neg (Nat.not_lt.mpr (hl l hlk))]

/-- Concrete instantiation of the amended DISCOVER theorem: on the empty
table the allocator picks 100 and the state is unchanged. -/
theorem discover_offer_no_store_witness :
    (discoverMsg 7).mtype = DMsgType.discover ∧
    stepFull (mkServer 1 100 102) (discoverMsg 7) 0 =
      (mkServer 1 100 102,
        (findAvailableIP (mkServer 1 100 102) 0).map Reply.offer) :=
  ⟨rfl, discover_offer_no_store (mkServer 1 100 102) (discoverMsg 7) 0 rfl
    (fun _ h => Option.noConfusion h)⟩

/-! ### Claim C4 -/

/-- C4 counterexample: with client 5 bound to 100, client 7's DISCOVERs
offer 101; after a RELEASE from client 5 (not a REQUEST) slipped between
two DISCOVERs handled at the same instant, the second DISCOVER offers
100 instead.  Likewise with nothing at all in between, two DISCOVERs at
instants 1 and 86401 straddle client 5's expiry and offer 101 then
100. -/
theorem offer_idempotence_counterexample :
    (stepFull (runFrom (mkServer 1 100 102) [(requestMsg 5 100, 0)])
        (discoverMsg 7) 0).2 = some (Reply.offer 101) ∧
    (stepFull
        (stepState (runFrom (mkServer 1 100 102) [(requestMsg 5 100, 0)])
          (releaseMsg 5) 0)
        (discoverMsg 7) 0).2 = some (Reply.offer 100) ∧
    (stepFull (runFrom (mkServer 1 100 102) [(requestMsg 5 100, 0)])
        (discoverMsg 7) 1).2 = some (Reply.offer 101) ∧
    (stepFull (runFrom (mkServer 1 100 102) [(requestMsg 5 100, 0)])
        (discoverMsg 7) 86401).2 = some (Reply.offer 100) := by
  decide

/-- C4 (amended): a DISCOVER mutates nothing, so two DISCOVERs from the
same client handled at the same instant with no other message handled in
between produce identical replies — in particular, when OFFERs are
emitted they carry the same address. -/
theorem offer_idempotent_same_instant (s : ServerState) (m : Msg) (now : Nat)
    (hm : m.mtype = DMsgType.discover) :
    stepState s m now = s ∧
    stepFull (stepState s m now) m now = stepFull s m now := by
  have h1 : stepState s m now = s := by
    unfold stepState stepFull
    rw [hm]
  exact ⟨h1, by rw [h1]⟩

/-- Concrete instantiation of the DISCOVER idempotence theorem. -/
theorem offer_idempotent_same_instant_witness :
    (discoverMsg 7).mtype = DMsgType.discover ∧
    stepState (mkServer 1 100 102) (discoverMsg 7) 0 = mkServer 1 100 102 ∧
    stepFull (stepState (mkServer 1 100 102) (discoverMsg 7) 0)
        (discoverMsg 7) 0 =
      stepFull (mkServer 1 100 102) (discoverMsg 7) 0 :=
  ⟨rfl,
    (offer_idempotent_same_instant (mkServer 1 100 102) (discoverMsg 7) 0 rfl).1,
    (offer_idempotent_same_instant (mkServer 1 100 102) (discoverMsg 7) 0 rfl).2⟩

/-! ### Claim C3 -/

/-- C3 counterexample: the cooperative handler never reads the
server-identifier field.  A REQUEST for 100 from client 7 carrying
server-identifier 99 — not this server's address 1 — is answered with
ACK and a new lease is stored, instead of the claimed silence with an
unchanged table. -/
theorem foreign_server_id_main_counterexample :
    (99 : Nat) ≠ (mkServer 1 100 102).serverIP ∧
    (stepFull (mkServer 1 100 102)
        { mtype := DMsgType.request, mac := 7, requestedIP := some 100,
          serverId := some 99, ciaddr := 0, hostname := "" } 0).2 =
      some (Reply.ack 100) ∧
    (stepFull (mkServer 1 100 102)
        { mtype := DMsgType.request, mac := 7, requestedIP := some 100,
          serverId := some 99, ciaddr := 0, hostname := "" } 0).1.leases.lookup 7 =
      some { ip := 100, mac := 7, expiry := 86400, hostname := "" } := by
  decide

/-- C3 (amended): in the adversarial variant, a REQUEST whose
server-identifier option names a different server gets no reply and
leaves the lease map unchanged; the cooperative variant does not perform
this check. -/
theorem foreign_server_id_ignored_rogue (h : RogueState) (m : Msg) (sid : Nat)
    (hm : m.mtype = DMsgType.request) (hs : m.serverId = some sid)
    (hne : sid ≠ h.cfg.serverIP) :
    serveDHCP h m = (h, none) := by
  unfold serveDHCP
  rw [hm]
  dsimp only
  rw [hs]
  dsimp only
  rw [if_neg hne]

/-- Concrete instantiation of the rogue server-identifier theorem. -/
theorem foreign_server_id_ignored_rogue_witness :
    (99 : Nat) ≠ (50 : Nat) ∧
    serveDHCP
        { cfg := { serverIP := 50, startIP := 150, endIP := 200,
                   leaseDuration := 86400 }, leaseDB := [] }
        { mtype := DMsgType.request, mac := 7, requestedIP := some 160,
          serverId := some 99, ciaddr := 0, hostname := "" } =
      ({ cfg := { serverIP := 50, startIP := 150, endIP := 200,
                  leaseDuration := 86400 }, leaseDB := [] }, none) :=
  ⟨by decide,
    foreign_server_id_ignored_rogue
      { cfg := { serverIP := 50, startIP := 150, endIP := 200,
                 leaseDuration := 86400 }, leaseDB := [] }
      { mtype := DMsgType.request, mac := 7, requestedIP := some 160,
        serverId := some 99, ciaddr := 0, hostname := "" }
      99 rfl rfl (by decide)⟩

/-! ### Claim C5 -/

/-- C5: in any state reached from the empty table, a REQUEST whose
requested address equals the address of the lease the client already
holds — regardless of that lease's expiry — extends the lease's expiry
to `now + leaseDuration`, keeps its address, and is answered with ACK.
(Reachability supplies the fact that every stored address is in the
pool, so the pool check cannot reject the renewal.) -/
theorem request_renewal_extends_expiry (srv st en now : Nat)
    (ms : List (Msg × Nat)) (s : ServerState) (m : Msg) (l : Lease)
    (hreach : s = runFrom (mkServer srv st en) ms)
    (hm : m.mtype = DMsgType.request)
    (hl : s.leases.lookup m.mac = some l)
    (hr : m.requestedIP = some l.ip) :
    stepFull s m now =
      ({ s with leases := putKV s.leases m.mac { l with expiry := now + s.leaseDuration } },
        some (Reply.ack l.ip)) := by
  have hip : l.ip ∈ s.ipPool := by
    have hinit : leasesInPool (mkServer srv st en) := by
      intro k l0 hk
      simp [mkServer] at hk
    have := run_leasesInPool ms (mkServer srv st en) hinit
    rw [hreach]
    exact this m.mac l (by rw [← hreach]; exact hl)
  unfold stepFull
  rw [hm]
  dsimp only
  unfold handleRequest
  rw [hr]
  dsimp only
  rw [if_pos (mem_isIPInPool hip)]
  rw [hl]
  dsimp only
  rw [if_pos rfl]

/-- Concrete instantiation of the renewal theorem: client 5 obtained 100
at instant 0 and renews at instant 10. -/
theorem request_renewal_extends_expiry_witness :
    (runFrom (mkServer 1 100 102) [(requestMsg 5 100, 0)]).leases.lookup 5 =
      some { ip := 100, mac := 5, expiry := 86400, hostname := "" } ∧
    stepFull (runFrom (mkServer 1 100 102) [(requestMsg 5 100, 0)])
        (requestMsg 5 100) 10 =
      ({ serverIP := 1, ipPool := buildPool 1 100 102, leaseDuration := 86400,
         leases := [(5, { ip := 100, mac := 5, expiry := 86410, hostname := "" })] },
        some (Reply.ack 100)) :=
  ⟨by decide,
    request_renewal_extends_expiry 1 100 102 10 [(requestMsg 5 100, 0)]
      (runFrom (mkServer 1 100 102) [(requestMsg 5 100, 0)])
      (requestMsg 5 100)
      { ip := 100, mac := 5, expiry := 86400, hostname := "" }
      rfl rfl (by decide) rfl⟩

/-! ### Claim C6 -/

/-- C6: a REQUEST whose requested address is outside the pool, or is held
with an unexpired lease by a different client while the requesting
client's own stored lease (if any) is for a different address, is
answered with NAK and the state — in particular the lease table — is
exactly the state before handling. -/
theorem invalid_request_naks_without_mutation (s : ServerState) (m : Msg)
    (now rip : Nat)
    (hm : m.mtype = DMsgType.request)
    (hr : m.requestedIP = some rip)
    (hcase :
      rip ∉ s.ipPool ∨
      (∃ c l, c ≠ m.mac ∧ s.leases.lookup c = some l ∧ l.ip = rip ∧
        now < l.expiry ∧
        ∀ l0, s.leases.lookup m.mac = some l0 → l0.ip ≠ rip)) :
    stepFull s m now = (s, some Reply.nak) := by
  unfold stepFull
  rw [hm]
  dsimp only
  unfold handleRequest
  rw [hr]
  dsimp only
  by_cases hpool : isIPInPool s rip = true
  · rw [if_pos hpool]
    rcases hcase with hout | ⟨c, l, hc, hlc, hlip, hlexp, hown⟩
    · exact absurd (isIPInPool_mem hpool) hout
    · have hunav : isIPAvailable s rip now = false := by
        cases hav : isIPAvailable s rip now with
        | false => rfl
        | true =>
            have := isIPAvailable_spec hav (c, l) (lookup_mem hlc) hlip
            exact absurd hlexp (Nat.not_lt.mpr this)
      cases hlk : s.leases.lookup m.mac with
      | some l0 =>
          dsimp only
          rw [if_neg (hown l0 hlk)]
          unfold handleRequestAssign
          rw [hunav]
          simp
      | none =>
          dsimp only
          unfold handleRequestAssign
          rw [hunav]
          simp
  · rw [if_neg hpool]

/-- Concrete instantiation of the NAK theorem: a REQUEST for 999, outside
the pool 100–102, is refused without mutation. -/
theorem invalid_request_naks_without_mutation_witness :
    (999 : Nat) ∉ (mkServer 1 100 102).ipPool ∧
    stepFull (mkServer 1 100 102) (requestMsg 6 999) 0 =
      (mkServer 1 100 102, some Reply.nak) :=
  ⟨by decide,
    invalid_request_naks_without_mutation (mkServer 1 100 102)
      (requestMsg 6 999) 0 999 rfl rfl (Or.inl (by decide))⟩

/-! ### Claim C7 -/

/-- C7 counterexample: run `staleRenewalTrace` and then a RELEASE from
client 5 at instant 86403.  Client 5 held an unexpired lease on 100
(expiry 172802 > 86403) and the release removes it and emits no reply,
but the availability check for 100 still reports taken, because client
6's unexpired lease also covers 100 — so "a subsequent availability
check returns free" fails. -/
theorem release_frees_counterexample :
    timesMono 0 (staleRenewalTrace ++ [(releaseMsg 5, 86403)]) = true ∧
    (runFrom (mkServer 1 100 102) staleRenewalTrace).leases.lookup 5 =
      some { ip := 100, mac := 5, expiry := 172802, hostname := "" } ∧
    (86403 : Nat) < 172802 ∧
    (stepFull (runFrom (mkServer 1 100 102) staleRenewalTrace)
        (releaseMsg 5) 86403).2 = none ∧
    (runFrom (mkServer 1 100 102)
        (staleRenewalTrace ++ [(releaseMsg 5, 86403)])).leases.lookup 5 =
      none ∧
    isIPAvailable
        (runFrom (mkServer 1 100 102)
          (staleRenewalTrace ++ [(releaseMsg 5, 86403)])) 100 86403 =
      false := by
  decide

/-- C7 (amended): after a RELEASE from a client holding a lease, the
table has no lease for that client and no reply is emitted; the
availability check for the released address at a later instant `e`
(even one before the lease's original expiry) returns free provided no
other stored lease covers that address unexpired at `e`. -/
theorem release_frees_immediately (s : ServerState) (m : Msg)
    (now e : Nat) (l : Lease)
    (hm : m.mtype = DMsgType.release)
    (hl : s.leases.lookup m.mac = some l)
    (_hexp : e < l.expiry)
    (hother : ∀ p ∈ s.leases, p.1 ≠ m.mac → p.2.ip = l.ip → p.2.expiry ≤ e) :
    (stepFull s m now).2 = none ∧
    (stepFull s m now).1.leases.lookup m.mac = none ∧
    isIPAvailable (stepFull s m now).1 l.ip e = true := by
  unfold stepFull
  rw [hm]
  dsimp only
  unfold handleRelease
  rw [hl]
  dsimp only
  refine ⟨rfl, ?_, ?_⟩
  · exact lookup_filter_self s.leases m.mac
  · apply isIPAvailable_of_spec
    intro p hp hip
    have hmem := List.mem_filter.mp hp
    exact hother p hmem.1 (bne_iff_ne.mp hmem.2) hip

/-- Concrete instantiation of the amended RELEASE theorem: client 5 holds
100 with expiry 86400; releasing at instant 10 frees 100 at instant 20,
long before the expiry. -/
theorem release_frees_immediately_witness :
    (runFrom (mkServer 1 100 102) [(requestMsg 5 100, 0)]).leases.lookup 5 =
      some { ip := 100, mac := 5, expiry := 86400, hostname := "" } ∧
    (20 : Nat) < 86400 ∧
    (stepFull (runFrom (mkServer 1 100 102) [(requestMsg 5 100, 0)])
        (releaseMsg 5) 10).2 = none ∧
    (stepFull (runFrom (mkServer 1 100 102) [(requestMsg 5 100, 0)])
        (releaseMsg 5) 10).1.leases.lookup 5 = none ∧
    isIPAvailable
        (stepFull (runFrom (mkServer 1 100 102) [(requestMsg 5 100, 0)])
          (releaseMsg 5) 10).1 100 20 = true := by
  have h := release_frees_immediately
    (runFrom (mkServer 1 100 102) [(requestMsg 5 100, 0)])
    (releaseMsg 5) 10 20
    { ip := 100, mac := 5, expiry := 86400, hostname := "" }
    rfl (by decide) (by decide) (by decide)
  exact ⟨by decide, by decide, h.1, h.2.1, h.2.2⟩

/-! ### Claim C8 -/

/-- C8: the constructed pool is exactly the addresses from `st` to `en`
inclusive with the server's address excluded, listed in ascending
order; and every address stored in a lease by any handled message
sequence is a member of that pool, hence never the server's address. -/
theorem pool_containment (srv st en : Nat) :
    (∀ ip, ip ∈ buildPool srv st en ↔ (st ≤ ip ∧ ip ≤ en ∧ ip ≠ srv)) ∧
    List.Pairwise (· < ·) (buildPool srv st en) ∧
    (∀ (ms : List (Msg × Nat)) (mac : Nat) (l : Lease),
      (runFrom (mkServer srv st en) ms).leases.lookup mac = some l →
        l.ip ∈ buildPool srv st en ∧ l.ip ≠ srv) := by
  have hmem : ∀ ip, ip ∈ buildPool srv st en ↔ (st ≤ ip ∧ ip ≤ en ∧ ip ≠ srv) := by
    intro ip
    unfold buildPool
    rw [List.mem_filter, List.mem_range'_1, bne_iff_ne]
    constructor
    · rintro ⟨⟨h1, h2⟩, h3⟩
      exact ⟨h1, by omega, h3⟩
    · rintro ⟨h1, h2, h3⟩
      exact ⟨⟨h1, by omega⟩, h3⟩
  refine ⟨hmem, ?_, ?_⟩
  · exact (List.pairwise_lt_range' st (en + 1 - st)).filter _
  · intro ms mac l hlk
    have hinit : leasesInPool (mkServer srv st en) := by
      intro k l0 hk
      simp [mkServer] at hk
    have hpool := run_leasesInPool ms (mkServer srv st en) hinit mac l hlk
    have hcfg := (runFrom_config ms (mkServer srv st en)).2.1
    rw [hcfg] at hpool
    have hp : l.ip ∈ buildPool srv st en := hpool
    exact ⟨hp, ((hmem l.ip).mp hp).2.2⟩

/-- Concrete instantiation of the pool-containment theorem: after client
5 obtains a lease, its stored address 100 is in the pool and differs
from the server address 1. -/
theorem pool_containment_witness :
    (runFrom (mkServer 1 100 102) [(requestMsg 5 100, 0)]).leases.lookup 5 =
      some { ip := 100, mac := 5, expiry := 86400, hostname := "" } ∧
    ((100 : Nat) ∈ buildPool 1 100 102 ∧ (100 : Nat) ≠ 1) :=
  ⟨by decide,
    (pool_containment 1 100 102).2.2 [(requestMsg 5 100, 0)] 5
      { ip := 100, mac := 5, expiry := 86400, hostname := "" } (by decide)⟩

/-! ### Claim C9 -/

/-- C9: the adversarial handler's DISCOVER reply carries the address
computed only from the configured range — the start plus half the range
size — so two DISCOVERs from any two clients (any MACs, any lease maps
over the same configuration) are offered exactly the same address. -/
theorem rogue_offer_client_independent (h1 h2 : RogueState) (m1 m2 : Msg)
    (hc : h1.cfg = h2.cfg)
    (hm1 : m1.mtype = DMsgType.discover)
    (hm2 : m2.mtype = DMsgType.discover) :
    (serveDHCP h1 m1).2 =
      some { ptype := DMsgType.offer, server := h1.cfg.serverIP,
             yiaddr := ipAdd h1.cfg.startIP
               (Int.tdiv (ipRange h1.cfg.startIP h1.cfg.endIP) 2) } ∧
    (∃ p1 p2, (serveDHCP h1 m1).2 = some p1 ∧ (serveDHCP h2 m2).2 = some p2 ∧
      p1.yiaddr = p2.yiaddr) := by
  have e1 : (serveDHCP h1 m1).2 =
      some { ptype := DMsgType.offer, server := h1.cfg.serverIP,
             yiaddr := rogueOfferIP h1.cfg } := by
    unfold serveDHCP
    rw [hm1]
  have e2 : (serveDHCP h2 m2).2 =
      some { ptype := DMsgType.offer, server := h2.cfg.serverIP,
             yiaddr := rogueOfferIP h2.cfg } := by
    unfold serveDHCP
    rw [hm2]
  refine ⟨e1, ⟨_, _, e1, e2, ?_⟩⟩
  rw [hc]

/-- Concrete instantiation of the uniform-offer theorem: two distinct
clients (MACs 7 and 8), one of them with a populated lease map, are both
offered 175 over the range 150–200. -/
theorem rogue_offer_client_independent_witness :
    (serveDHCP
        { cfg := { serverIP := 50, startIP := 150, endIP := 200,
                   leaseDuration := 86400 }, leaseDB := [] }
        { mtype := DMsgType.discover, mac := 7, requestedIP := none,
          serverId := none, ciaddr := 0, hostname := "" }).2 =
      some { ptype := DMsgType.offer, server := 50, yiaddr := 175 } ∧
    (∃ p1 p2,
      (serveDHCP
          { cfg := { serverIP := 50, startIP := 150, endIP := 200,
                     leaseDuration := 86400 }, leaseDB := [] }
          { mtype := DMsgType.discover, mac := 7, requestedIP := none,
            serverId := none, ciaddr := 0, hostname := "" }).2 = some p1 ∧
      (serveDHCP
          { cfg := { serverIP := 50, startIP := 150, endIP := 200,
                     leaseDuration := 86400 }, leaseDB := [(7, 175)] }
          { mtype := DMsgType.discover, mac := 8, requestedIP := none,
            serverId := none, ciaddr := 0, hostname := "" }).2 = some p2 ∧
      p1.yiaddr = p2.yiaddr) := by
  have h := rogue_offer_client_independent
    { cfg := { serverIP := 50, startIP := 150, endIP := 200,
               leaseDuration := 86400 }, leaseDB := [] }
    { cfg := { serverIP := 50, startIP := 150, endIP := 200,
               leaseDuration := 86400 }, leaseDB := [(7, 175)] }
    { mtype := DMsgType.discover, mac := 7, requestedIP := none,
      serverId := none, ciaddr := 0, hostname := "" }
    { mtype := DMsgType.discover, mac := 8, requestedIP := none,
      serverId := none, ciaddr := 0, hostname := "" }
    rfl rfl rfl
  exact ⟨h.1.trans (by decide), h.2⟩

/-! ### Claim C10 -/

/-- C10: the adversarial handler answers every REQUEST whose
server-identifier option is absent or names this server with an ACK —
it never produces a NAK on any input — and the acknowledged address is
the one recorded in the lease map for the client, or, failing that, the
requested-address option, or, failing that, the client's `ciaddr`; no
pool or availability check is consulted. -/
theorem rogue_request_always_ack (h : RogueState) (m : Msg)
    (hm : m.mtype = DMsgType.request)
    (hs : m.serverId = none ∨ m.serverId = some h.cfg.serverIP) :
    serveDHCP h m =
      (h, some { ptype := DMsgType.ack, server := h.cfg.serverIP,
                 yiaddr := (h.leaseDB.lookup m.mac).getD
                   (m.requestedIP.getD m.ciaddr) }) ∧
    (∀ (h0 : RogueState) (m0 : Msg) (p : RoguePacket),
      (serveDHCP h0 m0).2 = some p → p.ptype ≠ DMsgType.nak) := by
  constructor
  · unfold serveDHCP
    rw [hm]
    dsimp only
    rcases hs with hnone | hself
    · rw [hnone]
      rfl
    · rw [hself]
      dsimp only
      rw [if_pos rfl]
      rfl
  · intro h0 m0 p hp
    unfold serveDHCP at hp
    cases hm0 : m0.mtype <;> rw [hm0] at hp <;> dsimp only at hp
    case discover =>
      injection hp with hv
      rw [← hv]
      exact fun hcon => DMsgType.noConfusion hcon
    case request =>
      cases hsid : m0.serverId with
      | none =>
          rw [hsid] at hp
          injection hp with hv
          rw [← hv]
          exact fun hcon => DMsgType.noConfusion hcon
      | some sid =>
          rw [hsid] at hp
          dsimp only at hp
          by_cases hside : sid = h0.cfg.serverIP
          · rw [if_pos hside] at hp
            injection hp with hv
            rw [← hv]
            exact fun hcon => DMsgType.noConfusion hcon
          · rw [if_neg hside] at hp
            exact absurd hp (by simp)
    all_goals exact absurd hp (by simp)

/-- Concrete instantiation of the always-ACK theorem: with no recorded
lease and no requested-address option, the rogue handler ACKs the
client's own `ciaddr`. -/
theorem rogue_request_always_ack_witness :
    serveDHCP
        { cfg := { serverIP := 50, startIP := 150, endIP := 200,
                   leaseDuration := 86400 }, leaseDB := [] }
        { mtype := DMsgType.request, mac := 9, requestedIP := none,
          serverId := some 50, ciaddr := 171, hostname := "" } =
      ({ cfg := { serverIP := 50, startIP := 150, endIP := 200,
                  leaseDuration := 86400 }, leaseDB := [] },
        some { ptype := DMsgType.ack, server := 50, yiaddr := 171 }) :=
  ((rogue_request_always_ack
      { cfg := { serverIP := 50, startIP := 150, endIP := 200,
                 leaseDuration := 86400 }, leaseDB := [] }
      { mtype := DMsgType.request, mac := 9, requestedIP := none,
        serverId := some 50, ciaddr := 171, hostname := "" }
      rfl (Or.inr rfl)).1).trans (by decide)

end DHCPot
